import Mathlib

/-!
# Verification of the Arduino Switched Reluctance Motor Control library

Shallow embedding of `src/srm_control.c` / `src/srm_control.h`.

Modelling conventions:

* The C `unsigned char` fields are `Nat` kept below 256 by explicit
  `% 256` wherever the C arithmetic could wrap (the left shift of
  `position`).  The C `unsigned long` fields (`time_step`, `next_update`)
  are `Nat` reduced `% 2 ^ 32` at every assignment that could overflow
  (AVR `unsigned long` is 32 bits wide).
* The Arduino collaborators are made explicit: `micros()` becomes a
  `now : Nat` argument threaded to every function that reads the clock,
  `digitalWrite` becomes an emitted list of `Write` records, and
  `pinMode(p, OUTPUT)` becomes an emitted list of configured pin ids.
* C integer division faults on a zero divisor (undefined behaviour), so
  division is embedded as `cDiv`, returning `none` on divisor zero;
  functions that divide therefore return `Option`.
-/

namespace SRM

/-- `HIGH` / `LOW` logic levels of `digitalWrite`. -/
inductive PinLevel where
  | low
  | high
deriving Repr, DecidableEq

/-- One `digitalWrite(pin, level)` call. -/
structure Write where
  pin : Nat
  level : PinLevel
deriving Repr, DecidableEq

/-- `enum SequenceType` from `srm_control.h`.  The C `switch` in
`motor_initialize` treats every value other than `SEQUENCE_OVERLAP` as
`SEQUENCE_SIMPLE` (its `default` case), so the two constructors cover all
behaviours. -/
inductive SequenceType where
  | simple
  | overlap
deriving Repr, DecidableEq

/-- The `Sequence` struct from `srm_control.h`. -/
structure Sequence where
  pin1 : Nat
  pin2 : Nat
  pin3 : Nat
  phase1 : Nat
  phase2 : Nat
  phase3 : Nat
  limit : Nat
  steps : Nat
  position : Nat
  running : Bool
  speed_control : Bool
  time_step : Nat
  next_update : Nat
deriving Repr, DecidableEq

/-- Modulus of C `unsigned char`. -/
def UCHAR_MOD : Nat := 256

/-- Modulus of AVR C `unsigned long` (32 bits). -/
def ULONG_MOD : Nat := 4294967296

/-- C integer division: faults (undefined behaviour) on divisor zero. -/
def cDiv (a b : Nat) : Option Nat :=
  if b = 0 then none else some (a / b)

/-- `motor_set_speed`: `time_step = (60000000 / speed) / steps;`
`next_update = micros() + time_step;`.  Both divisions go through `cDiv`
because the C source guards neither divisor. -/
def motor_set_speed (s : Sequence) (now : Nat) (speed : Nat) :
    Option Sequence := do
  let q ← cDiv 60000000 speed
  let ts ← cDiv q s.steps
  some { s with
    time_step := ts
    next_update := (now + ts) % ULONG_MOD }

/-- `motor_set_speed_control`: store the flag. -/
def motor_set_speed_control (s : Sequence) (status : Bool) : Sequence :=
  { s with speed_control := status }

/-- `motor_should_update`: with speed control off, always true; with it
on, true exactly when `micros() >= next_update`, and on a true result
`next_update += time_step`. -/
def motor_should_update (s : Sequence) (now : Nat) : Bool × Sequence :=
  if s.speed_control then
    if now ≥ s.next_update then
      (true, { s with next_update := (s.next_update + s.time_step) % ULONG_MOD })
    else
      (false, s)
  else
    (true, s)

/-- `motor_apply`: no writes when not running; otherwise one
`digitalWrite` per pin, `HIGH` iff the phase mask ANDed with the position
is nonzero. -/
def motor_apply (s : Sequence) : List Write :=
  if s.running then
    [ ⟨s.pin1, if s.phase1 &&& s.position ≠ 0 then .high else .low⟩,
      ⟨s.pin2, if s.phase2 &&& s.position ≠ 0 then .high else .low⟩,
      ⟨s.pin3, if s.phase3 &&& s.position ≠ 0 then .high else .low⟩ ]
  else
    []

/-- The position update of `motor_step`: `position <<= 1` (an
`unsigned char`, hence `% 256`), then wrap to 1 when it equals `limit`. -/
def forwardPos (limit p : Nat) : Nat :=
  let q := (p <<< 1) % UCHAR_MOD
  if q = limit then 1 else q

/-- The position update of `motor_step_backward`: `position >>= 1`,
then wrap to `limit >> 1` when the result is below 1. -/
def backwardPos (limit p : Nat) : Nat :=
  let q := p >>> 1
  if q < 1 then limit >>> 1 else q

/-- `motor_step`: gate through `motor_should_update`; on pass, shift the
position left with wrap and apply the pins.  Returns the C return value,
the new state and the emitted `digitalWrite` calls. -/
def motor_step (s : Sequence) (now : Nat) : Bool × Sequence × List Write :=
  let (ok, s1) := motor_should_update s now
  if ok then
    let s2 := { s1 with position := forwardPos s1.limit s1.position }
    (true, s2, motor_apply s2)
  else
    (false, s1, [])

/-- `motor_step_backward`: gate through `motor_should_update`; on pass,
shift the position right with wrap and apply the pins. -/
def motor_step_backward (s : Sequence) (now : Nat) :
    Bool × Sequence × List Write :=
  let (ok, s1) := motor_should_update s now
  if ok then
    let s2 := { s1 with position := backwardPos s1.limit s1.position }
    (true, s2, motor_apply s2)
  else
    (false, s1, [])

/-- `motor_release`: clear `running` and force all three pins LOW. -/
def motor_release (s : Sequence) : Sequence × List Write :=
  ({ s with running := false },
   [⟨s.pin1, .low⟩, ⟨s.pin2, .low⟩, ⟨s.pin3, .low⟩])

/-- `motor_resume`: set `running`; writes nothing. -/
def motor_resume (s : Sequence) : Sequence :=
  { s with running := true }

/-- `motor_initialize`: select the phase pattern by type, store the pins,
set `limit = 1 << steps`, `position = 1`, `running`, speed control off,
apply the default 500 RPM speed, and configure pins as outputs.  The C
source calls `pinMode(pin1, OUTPUT); pinMode(pin2, OUTPUT);
pinMode(pin2, OUTPUT);` — the third call repeats `pin2` and `pin3` is
never configured; the returned list of configured pins reproduces this
faithfully.  The clock argument feeds `motor_set_speed`. -/
def motor_initialize (pin1 pin2 pin3 : Nat) (type : SequenceType)
    (now : Nat) : Option (Sequence × List Nat) := do
  let (p1, p2, p3, st) :=
    match type with
    | .overlap => (0b00110001, 0b00011100, 0b00000111, 6)
    | .simple => (0b00000100, 0b00000010, 0b00000001, 3)
  let base : Sequence :=
    { pin1 := pin1, pin2 := pin2, pin3 := pin3
      phase1 := p1, phase2 := p2, phase3 := p3
      limit := (1 <<< st) % UCHAR_MOD
      steps := st
      position := 1
      running := true
      speed_control := false
      time_step := 0, next_update := 0 }
  let s ← motor_set_speed base now 500
  some (s, [pin1, pin2, pin2])

/-- A step call in a trace: direction together with the `micros()`
reading observed during that call. -/
inductive StepOp where
  | forward (now : Nat)
  | backward (now : Nat)
deriving Repr, DecidableEq

/-- Run one step call, keeping the state and the emitted writes. -/
def runStep (s : Sequence) (op : StepOp) : Sequence × List Write :=
  match op with
  | .forward now => ((motor_step s now).2.1, (motor_step s now).2.2)
  | .backward now => ((motor_step_backward s now).2.1, (motor_step_backward s now).2.2)

/-- Run a finite trace of step calls, accumulating all pin writes. -/
def runSteps (s : Sequence) : List StepOp → Sequence × List Write
  | [] => (s, [])
  | op :: rest =>
    ((runSteps (runStep s op).1 rest).1,
      (runStep s op).2 ++ (runSteps (runStep s op).1 rest).2)

/-- The concrete state produced by
`motor_initialize 1 2 3 SequenceType.simple 0`. -/
def simpleInit : Sequence :=
  { pin1 := 1, pin2 := 2, pin3 := 3
    phase1 := 4, phase2 := 2, phase3 := 1
    limit := 8, steps := 3
    position := 1
    running := true
    speed_control := false
    time_step := 40000, next_update := 40000 }

/-- The concrete state produced by
`motor_initialize 1 2 3 SequenceType.overlap 0`. -/
def overlapInit : Sequence :=
  { pin1 := 1, pin2 := 2, pin3 := 3
    phase1 := 49, phase2 := 28, phase3 := 7
    limit := 64, steps := 6
    position := 1
    running := true
    speed_control := false
    time_step := 20000, next_update := 20000 }

/-- Iterate `motor_step` over a list of clock readings, conjoining the
returned flags. -/
def stepForwardN (s : Sequence) : List Nat → Bool × Sequence
  | [] => (true, s)
  | t :: ts =>
    let r := motor_step s t
    let rest := stepForwardN r.2.1 ts
    (r.1 && rest.1, rest.2)

/-- State invariant maintained by initialization and stepping: the phase
masks, step count and limit are those of one of the two built-in
patterns, and the position is a single set bit strictly below the limit. -/
def Inv (s : Sequence) : Prop :=
  ((s.phase1 = 4 ∧ s.phase2 = 2 ∧ s.phase3 = 1 ∧ s.steps = 3) ∨
   (s.phase1 = 49 ∧ s.phase2 = 28 ∧ s.phase3 = 7 ∧ s.steps = 6)) ∧
  s.limit = 2 ^ s.steps ∧
  ∃ k, k < s.steps ∧ s.position = 2 ^ k

/-- Agreement of every field except `position` and `next_update`. -/
def SameConfig (s t : Sequence) : Prop :=
  t.pin1 = s.pin1 ∧ t.pin2 = s.pin2 ∧ t.pin3 = s.pin3 ∧
  t.phase1 = s.phase1 ∧ t.phase2 = s.phase2 ∧ t.phase3 = s.phase3 ∧
  t.limit = s.limit ∧ t.steps = s.steps ∧ t.running = s.running ∧
  t.speed_control = s.speed_control ∧ t.time_step = s.time_step

example : motor_initialize 1 2 3 .simple 0 = some (simpleInit, [1, 2, 2]) := by
  decide

example : motor_initialize 1 2 3 .overlap 0 = some (overlapInit, [1, 2, 2]) := by
  decide

lemma motor_set_speed_500_steps3 (s : Sequence) (now : Nat)
    (h3 : s.steps = 3) :
    motor_set_speed s now 500 =
      some { s with time_step := 40000,
                    next_update := (now + 40000) % ULONG_MOD } := by
  simp [motor_set_speed, cDiv, h3]

lemma motor_set_speed_500_steps6 (s : Sequence) (now : Nat)
    (h6 : s.steps = 6) :
    motor_set_speed s now 500 =
      some { s with time_step := 20000,
                    next_update := (now + 20000) % ULONG_MOD } := by
  simp [motor_set_speed, cDiv, h6]

lemma motor_initialize_simple_eq (p1 p2 p3 now : Nat) :
    motor_initialize p1 p2 p3 .simple now =
      some ({ pin1 := p1, pin2 := p2, pin3 := p3
              phase1 := 4, phase2 := 2, phase3 := 1
              limit := 8, steps := 3, position := 1
              running := true, speed_control := false
              time_step := 40000
              next_update := (now + 40000) % ULONG_MOD }, [p1, p2, p2]) := by
  simp only [ motor_initialize]
  rw [motor_set_speed_500_steps3 _ now rfl]
  rfl

lemma motor_initialize_overlap_eq (p1 p2 p3 now : Nat) :
    motor_initialize p1 p2 p3 .overlap now =
      some ({ pin1 := p1, pin2 := p2, pin3 := p3
              phase1 := 49, phase2 := 28, phase3 := 7
              limit := 64, steps := 6, position := 1
              running := true, speed_control := false
              time_step := 20000
              next_update := (now + 20000) % ULONG_MOD }, [p1, p2, p2]) := by
  simp only [ motor_initialize]
  rw [motor_set_speed_500_steps6 _ now rfl]
  rfl

lemma initialize_inv (p1 p2 p3 : Nat) (ty : SequenceType) (now : Nat)
    (s0 : Sequence) (pins : List Nat)
    (h : motor_initialize p1 p2 p3 ty now = some (s0, pins)) :
    Inv s0 ∧ s0.speed_control = false ∧ s0.running = true ∧
      s0.pin1 = p1 ∧ s0.pin2 = p2 ∧ s0.pin3 = p3 := by
  cases ty
  · rw [motor_initialize_simple_eq] at h
    injection h with h1
    injection h1 with hs hp
    subst hs
    refine ⟨⟨Or.inl ⟨rfl, rfl, rfl, rfl⟩, by norm_num, 0, ?_, rfl⟩,
      rfl, rfl, rfl, rfl, rfl⟩
    show (0 : Nat) < 3
    norm_num
  · rw [motor_initialize_overlap_eq] at h
    injection h with h1
    injection h1 with hs hp
    subst hs
    refine ⟨⟨Or.inr ⟨rfl, rfl, rfl, rfl⟩, by norm_num, 0, ?_, rfl⟩,
      rfl, rfl, rfl, rfl, rfl⟩
    show (0 : Nat) < 6
    norm_num

lemma forwardPos_single_bit (steps k : Nat) (hst : steps = 3 ∨ steps = 6)
    (hk : k < steps) :
    ∃ j, j < steps ∧ forwardPos (2 ^ steps) (2 ^ k) = 2 ^ j := by
  rcases hst with h | h <;> subst h <;> interval_cases k
  · exact ⟨1, by decide, by decide⟩
  · exact ⟨2, by decide, by decide⟩
  · exact ⟨0, by decide, by decide⟩
  · exact ⟨1, by decide, by decide⟩
  · exact ⟨2, by decide, by decide⟩
  · exact ⟨3, by decide, by decide⟩
  · exact ⟨4, by decide, by decide⟩
  · exact ⟨5, by decide, by decide⟩
  · exact ⟨0, by decide, by decide⟩

lemma backwardPos_single_bit (steps k : Nat) (hst : steps = 3 ∨ steps = 6)
    (hk : k < steps) :
    ∃ j, j < steps ∧ backwardPos (2 ^ steps) (2 ^ k) = 2 ^ j := by
  rcases hst with h | h <;> subst h <;> interval_cases k
  · exact ⟨2, by decide, by decide⟩
  · exact ⟨0, by decide, by decide⟩
  · exact ⟨1, by decide, by decide⟩
  · exact ⟨5, by decide, by decide⟩
  · exact ⟨0, by decide, by decide⟩
  · exact ⟨1, by decide, by decide⟩
  · exact ⟨2, by decide, by decide⟩
  · exact ⟨3, by decide, by decide⟩
  · exact ⟨4, by decide, by decide⟩

/-- The pacing gate either fires and bumps `next_update`, declines and
leaves the state untouched, or fires trivially with speed control off. -/
lemma motor_should_update_split (s : Sequence) (now : Nat) :
    motor_should_update s now =
        (true, { s with next_update := (s.next_update + s.time_step) % ULONG_MOD }) ∨
      motor_should_update s now = (false, s) ∨
      motor_should_update s now = (true, s) := by
  unfold motor_should_update
  split
  · split
    · exact Or.inl rfl
    · exact Or.inr (Or.inl rfl)
  · exact Or.inr (Or.inr rfl)

/-- `motor_step` either advances the position by `forwardPos` (possibly
bumping `next_update`) or leaves the state unchanged. -/
lemma motor_step_shape (s : Sequence) (now : Nat) :
    (∃ u, (motor_step s now).2.1 =
        { s with position := forwardPos s.limit s.position, next_update := u }) ∨
      (motor_step s now).2.1 = s := by
  rcases motor_should_update_split s now with h | h | h
  · exact Or.inl ⟨(s.next_update + s.time_step) % ULONG_MOD, by simp [motor_step, h]⟩
  · exact Or.inr (by simp [motor_step, h])
  · exact Or.inl ⟨s.next_update, by simp [motor_step, h]⟩

/-- `motor_step_backward` either applies `backwardPos` or leaves the
state unchanged. -/
lemma motor_step_backward_shape (s : Sequence) (now : Nat) :
    (∃ u, (motor_step_backward s now).2.1 =
        { s with position := backwardPos s.limit s.position, next_update := u }) ∨
      (motor_step_backward s now).2.1 = s := by
  rcases motor_should_update_split s now with h | h | h
  · exact Or.inl ⟨(s.next_update + s.time_step) % ULONG_MOD,
      by simp [motor_step_backward, h]⟩
  · exact Or.inr (by simp [motor_step_backward, h])
  · exact Or.inl ⟨s.next_update, by simp [motor_step_backward, h]⟩

lemma sameConfig_refl (s : Sequence) : SameConfig s s :=
  ⟨rfl, rfl, rfl, rfl, rfl, rfl, rfl, rfl, rfl, rfl, rfl⟩

lemma sameConfig_trans {s t u : Sequence} (h1 : SameConfig s t)
    (h2 : SameConfig t u) : SameConfig s u := by
  obtain ⟨a1, a2, a3, a4, a5, a6, a7, a8, a9, a10, a11⟩ := h1
  obtain ⟨b1, b2, b3, b4, b5, b6, b7, b8, b9, b10, b11⟩ := h2
  exact ⟨b1.trans a1, b2.trans a2, b3.trans a3, b4.trans a4, b5.trans a5,
    b6.trans a6, b7.trans a7, b8.trans a8, b9.trans a9, b10.trans a10,
    b11.trans a11⟩

/-- A step call only touches `position` and `next_update`. -/
lemma runStep_sameConfig (s : Sequence) (op : StepOp) :
    SameConfig s (runStep s op).1 := by
  cases op with
  | forward t =>
    rcases motor_step_shape s t with ⟨u, hu⟩ | hu <;>
      · show SameConfig s (motor_step s t).2.1
        rw [hu]
        exact ⟨rfl, rfl, rfl, rfl, rfl, rfl, rfl, rfl, rfl, rfl, rfl⟩
  | backward t =>
    rcases motor_step_backward_shape s t with ⟨u, hu⟩ | hu <;>
      · show SameConfig s (motor_step_backward s t).2.1
        rw [hu]
        exact ⟨rfl, rfl, rfl, rfl, rfl, rfl, rfl, rfl, rfl, rfl, rfl⟩

/-- A trace of step calls only touches `position` and `next_update`. -/
lemma runSteps_sameConfig (s : Sequence) (ops : List StepOp) :
    SameConfig s (runSteps s ops).1 := by
  induction ops generalizing s with
  | nil => exact sameConfig_refl s
  | cons op rest ih =>
    simp only [runSteps]
    exact sameConfig_trans (runStep_sameConfig s op) (ih (runStep s op).1)

lemma runStep_inv (s : Sequence) (op : StepOp) (h : Inv s) :
    Inv (runStep s op).1 := by
  obtain ⟨hpat, hlim, k, hk, hpos⟩ := h
  have hst : s.steps = 3 ∨ s.steps = 6 := by
    rcases hpat with h | h
    · exact Or.inl h.2.2.2
    · exact Or.inr h.2.2.2
  cases op with
  | forward t =>
    obtain ⟨j, hj, hfwd⟩ := forwardPos_single_bit s.steps k hst hk
    show Inv (motor_step s t).2.1
    rcases motor_step_shape s t with ⟨u, hu⟩ | hu <;> rw [hu]
    · refine ⟨hpat, hlim, j, hj, ?_⟩
      show forwardPos s.limit s.position = 2 ^ j
      rw [hlim, hpos]
      exact hfwd
    · exact ⟨hpat, hlim, k, hk, hpos⟩
  | backward t =>
    obtain ⟨j, hj, hbwd⟩ := backwardPos_single_bit s.steps k hst hk
    show Inv (motor_step_backward s t).2.1
    rcases motor_step_backward_shape s t with ⟨u, hu⟩ | hu <;> rw [hu]
    · refine ⟨hpat, hlim, j, hj, ?_⟩
      show backwardPos s.limit s.position = 2 ^ j
      rw [hlim, hpos]
      exact hbwd
    · exact ⟨hpat, hlim, k, hk, hpos⟩

lemma runSteps_inv (s : Sequence) (ops : List StepOp) (h : Inv s) :
    Inv (runSteps s ops).1 := by
  induction ops generalizing s with
  | nil => exact h
  | cons op rest ih =>
    simp only [runSteps]
    exact ih (runStep s op).1 (runStep_inv s op h)

/-- C1: every reachable sequencer state — built by `motor_initialize`
with either pattern and transformed by any finite trace of `motor_step`
and `motor_step_backward` calls — has a `position` that is a power of
two, at least 1 and strictly below `limit`. -/
theorem position_always_single_bit (p1 p2 p3 : Nat) (ty : SequenceType)
    (t0 : Nat) (s0 : Sequence) (pins : List Nat)
    (hinit : motor_initialize p1 p2 p3 ty t0 = some (s0, pins))
    (ops : List StepOp) :
    ∃ k, (runSteps s0 ops).1.position = 2 ^ k ∧
      1 ≤ (runSteps s0 ops).1.position ∧
      (runSteps s0 ops).1.position < (runSteps s0 ops).1.limit := by
  obtain ⟨hinv, -, -⟩ := initialize_inv p1 p2 p3 ty t0 s0 pins hinit
  obtain ⟨-, hlim, k, hk, hpos⟩ := runSteps_inv s0 ops hinv
  refine ⟨k, hpos, ?_, ?_⟩
  · rw [hpos]
    exact Nat.one_le_two_pow
  · rw [hpos, hlim]
    exact Nat.pow_lt_pow_right Nat.one_lt_two hk

/-- C1 witness: a concrete run from the Simple pattern. -/
theorem position_always_single_bit_witness :
    ∃ k, (runSteps simpleInit [StepOp.forward 0, StepOp.backward 7]).1.position = 2 ^ k ∧
      1 ≤ (runSteps simpleInit [StepOp.forward 0, StepOp.backward 7]).1.position ∧
      (runSteps simpleInit [StepOp.forward 0, StepOp.backward 7]).1.position <
        (runSteps simpleInit [StepOp.forward 0, StepOp.backward 7]).1.limit :=
  position_always_single_bit 1 2 3 .simple 0 simpleInit [1, 2, 2] (by decide)
    [StepOp.forward 0, StepOp.backward 7]

/-- With speed control off, `motor_step` always advances. -/
lemma motor_step_unpaced (s : Sequence) (now : Nat)
    (h : s.speed_control = false) :
    motor_step s now =
      (true, { s with position := forwardPos s.limit s.position },
        motor_apply { s with position := forwardPos s.limit s.position }) := by
  simp [motor_step, motor_should_update, h]

/-- With speed control off, `motor_step_backward` always advances. -/
lemma motor_step_backward_unpaced (s : Sequence) (now : Nat)
    (h : s.speed_control = false) :
    motor_step_backward s now =
      (true, { s with position := backwardPos s.limit s.position },
        motor_apply { s with position := backwardPos s.limit s.position }) := by
  simp [motor_step_backward, motor_should_update, h]

/-- C4: with speed control disabled (the state `motor_initialize`
produces), starting from `position = 1`, exactly `steps` consecutive
`motor_step` calls — 3 for the Simple pattern, 6 for Overlap — return
`position` to 1, every call returning `true`; no shorter run of calls
returns to 1.  The clock readings of the calls are arbitrary. -/
theorem cycle_closure (t1 t2 t3 t4 t5 t6 : Nat) :
    motor_initialize 1 2 3 .simple 0 = some (simpleInit, [1, 2, 2]) ∧
    motor_initialize 1 2 3 .overlap 0 = some (overlapInit, [1, 2, 2]) ∧
    (stepForwardN simpleInit [t1, t2, t3]).1 = true ∧
    (stepForwardN simpleInit [t1, t2, t3]).2.position = 1 ∧
    (stepForwardN simpleInit [t1]).2.position ≠ 1 ∧
    (stepForwardN simpleInit [t1, t2]).2.position ≠ 1 ∧
    (stepForwardN overlapInit [t1, t2, t3, t4, t5, t6]).1 = true ∧
    (stepForwardN overlapInit [t1, t2, t3, t4, t5, t6]).2.position = 1 ∧
    (stepForwardN overlapInit [t1]).2.position ≠ 1 ∧
    (stepForwardN overlapInit [t1, t2]).2.position ≠ 1 ∧
    (stepForwardN overlapInit [t1, t2, t3]).2.position ≠ 1 ∧
    (stepForwardN overlapInit [t1, t2, t3, t4]).2.position ≠ 1 ∧
    (stepForwardN overlapInit [t1, t2, t3, t4, t5]).2.position ≠ 1 := by
  refine ⟨by decide, by decide, ?_⟩
  simp [stepForwardN, motor_step_unpaced, forwardPos, simpleInit, overlapInit,
    UCHAR_MOD]

lemma roundtrip_pos (steps k : Nat) (hst : steps = 3 ∨ steps = 6)
    (hk : k < steps) :
    backwardPos (2 ^ steps) (forwardPos (2 ^ steps) (2 ^ k)) = 2 ^ k ∧
    forwardPos (2 ^ steps) (backwardPos (2 ^ steps) (2 ^ k)) = 2 ^ k := by
  rcases hst with h | h <;> subst h <;> interval_cases k <;> exact ⟨by decide, by decide⟩

/-- C5: on any reachable state with speed control disabled (which the
step calls preserve from initialization), a forward step followed by a
backward step restores the prior `position`, and a backward step
followed by a forward step does too, for arbitrary clock readings. -/
theorem step_roundtrip (p1 p2 p3 : Nat) (ty : SequenceType) (t0 : Nat)
    (s0 : Sequence) (pins : List Nat)
    (hinit : motor_initialize p1 p2 p3 ty t0 = some (s0, pins))
    (ops : List StepOp) (t1 t2 : Nat) :
    ((motor_step_backward (motor_step (runSteps s0 ops).1 t1).2.1 t2).2.1).position =
      (runSteps s0 ops).1.position ∧
    ((motor_step (motor_step_backward (runSteps s0 ops).1 t1).2.1 t2).2.1).position =
      (runSteps s0 ops).1.position := by
  obtain ⟨hinv0, hsc0, -⟩ := initialize_inv p1 p2 p3 ty t0 s0 pins hinit
  obtain ⟨hpat, hlim, k, hk, hpos⟩ := runSteps_inv s0 ops hinv0
  have hsc : (runSteps s0 ops).1.speed_control = false :=
    ((runSteps_sameConfig s0 ops).2.2.2.2.2.2.2.2.2.1).trans hsc0
  have hst : (runSteps s0 ops).1.steps = 3 ∨ (runSteps s0 ops).1.steps = 6 := by
    rcases hpat with h | h
    · exact Or.inl h.2.2.2
    · exact Or.inr h.2.2.2
  obtain ⟨hbf, hfb⟩ := roundtrip_pos (runSteps s0 ops).1.steps k hst hk
  constructor
  · rw [motor_step_unpaced _ t1 hsc]
    rw [motor_step_backward_unpaced _ t2 (by exact hsc)]
    show backwardPos (runSteps s0 ops).1.limit
      (forwardPos (runSteps s0 ops).1.limit (runSteps s0 ops).1.position) =
        (runSteps s0 ops).1.position
    rw [hlim, hpos]
    exact hbf
  · rw [motor_step_backward_unpaced _ t1 hsc]
    rw [motor_step_unpaced _ t2 (by exact hsc)]
    show forwardPos (runSteps s0 ops).1.limit
      (backwardPos (runSteps s0 ops).1.limit (runSteps s0 ops).1.position) =
        (runSteps s0 ops).1.position
    rw [hlim, hpos]
    exact hfb

/-- C5 witness: Simple pattern, two prior steps, wrap points included. -/
theorem step_roundtrip_witness :
    ((motor_step_backward
        (motor_step (runSteps simpleInit [StepOp.forward 0, StepOp.forward 0]).1 5).2.1
          9).2.1).position =
      (runSteps simpleInit [StepOp.forward 0, StepOp.forward 0]).1.position ∧
    ((motor_step
        (motor_step_backward (runSteps simpleInit [StepOp.forward 0, StepOp.forward 0]).1 5).2.1
          9).2.1).position =
      (runSteps simpleInit [StepOp.forward 0, StepOp.forward 0]).1.position :=
  step_roundtrip 1 2 3 .simple 0 simpleInit [1, 2, 2] (by decide)
    [StepOp.forward 0, StepOp.forward 0] 5 9

/-- C6: `motor_should_update` always fires with speed control off; with
it on, it fires exactly when the clock reading has reached `next_update`,
a hit advances `next_update` by exactly `time_step` (32-bit unsigned
addition onto the previous schedule, not reset to `now + time_step`),
and a miss leaves the state untouched. -/
theorem should_update_spec (s : Sequence) (now : Nat) :
    (s.speed_control = false → motor_should_update s now = (true, s)) ∧
    (s.speed_control = true →
      ((motor_should_update s now).1 = true ↔ now ≥ s.next_update) ∧
      ((motor_should_update s now).1 = true →
        (motor_should_update s now).2 =
          { s with next_update := (s.next_update + s.time_step) % ULONG_MOD }) ∧
      ((motor_should_update s now).1 = false →
        (motor_should_update s now).2 = s)) := by
  by_cases hsc : s.speed_control
  · by_cases hge : now ≥ s.next_update <;>
      simp [motor_should_update, hsc, hge]
  · simp [motor_should_update, hsc]

/-- C6 witness: a paced state hit exactly at its deadline. -/
theorem should_update_spec_witness :
    (motor_should_update { simpleInit with speed_control := true } 40000).1 = true ∧
    (motor_should_update { simpleInit with speed_control := true } 40000).2 =
      { simpleInit with speed_control := true, next_update := 80000 } := by
  have h := (should_update_spec { simpleInit with speed_control := true } 40000).2 rfl
  have hb : (motor_should_update { simpleInit with speed_control := true } 40000).1 = true :=
    h.1.mpr (by decide)
  exact ⟨hb, by decide⟩

/-- C7: for a positive RPM (and the positive step counts the library
sets up), `motor_set_speed` stores `time_step = (60000000 / rpm) / steps`
by integer division and schedules `next_update` at the clock reading plus
`time_step` (32-bit unsigned addition). -/
theorem set_speed_spec (s : Sequence) (now rpm : Nat) (hr : 0 < rpm)
    (hs : 0 < s.steps) :
    motor_set_speed s now rpm =
      some { s with
        time_step := 60000000 / rpm / s.steps
        next_update := (now + 60000000 / rpm / s.steps) % ULONG_MOD } := by
  simp [motor_set_speed, cDiv, Nat.pos_iff_ne_zero.mp hr, Nat.pos_iff_ne_zero.mp hs]

/-- C7 witness: 500 RPM with 3 steps gives a 40000 microsecond step. -/
theorem set_speed_spec_witness :
    motor_set_speed simpleInit 0 500 =
      some { simpleInit with time_step := 40000, next_update := 40000 } := by
  have h := set_speed_spec simpleInit 0 500 (by decide) (by decide)
  exact h.trans (by decide)

/-- C2 evidence: `motor_set_speed` has no precondition check — the call
with `rpm = 0` reaches the division `60000000 / rpm` whose divisor is
zero, so it faults (undefined behaviour, `none` in the embedding) rather
than failing through any explicit rejection path. -/
theorem set_speed_zero_fault (s : Sequence) (now : Nat) :
    motor_set_speed s now 0 = none ∧ cDiv 60000000 0 = none := by
  constructor
  · simp [motor_set_speed, cDiv]
  · rfl

/-- C3 evidence: `motor_initialize` issues `pinMode` for `pin1`, then
twice for `pin2`, and never for `pin3` — with pins (1, 2, 3) the
configured-pin list is `[1, 2, 2]`: pin 3 occurs zero times, pin 2
twice, under both pattern types. -/
theorem initialize_pinmode_bug :
    (∃ s, motor_initialize 1 2 3 SequenceType.simple 0 = some (s, [1, 2, 2])) ∧
    (∃ s, motor_initialize 1 2 3 SequenceType.overlap 0 = some (s, [1, 2, 2])) ∧
    List.count 3 [1, 2, 2] = 0 ∧ List.count 2 [1, 2, 2] = 2 ∧
    List.count 1 [1, 2, 2] = 1 :=
  ⟨⟨simpleInit, by decide⟩, ⟨overlapInit, by decide⟩, by decide, by decide,
    by decide⟩

lemma level_eq_high_iff (c : Prop) [Decidable c] :
    (if c then PinLevel.high else PinLevel.low) = PinLevel.high ↔ c := by
  by_cases h : c <;> simp [h]

/-- C8: while running, `motor_apply` writes the three pins in order,
each `HIGH` exactly when its phase mask ANDed with `position` is
nonzero; concretely, the Simple pattern at position 1 gives
(LOW, LOW, HIGH) and one step later, at position 2, (LOW, HIGH, LOW). -/
theorem apply_pins_spec (s : Sequence) (hr : s.running = true) :
    (∃ l1 l2 l3,
      motor_apply s = [⟨s.pin1, l1⟩, ⟨s.pin2, l2⟩, ⟨s.pin3, l3⟩] ∧
      (l1 = PinLevel.high ↔ s.phase1 &&& s.position ≠ 0) ∧
      (l2 = PinLevel.high ↔ s.phase2 &&& s.position ≠ 0) ∧
      (l3 = PinLevel.high ↔ s.phase3 &&& s.position ≠ 0)) ∧
    motor_apply simpleInit =
      [⟨1, PinLevel.low⟩, ⟨2, PinLevel.low⟩, ⟨3, PinLevel.high⟩] ∧
    (motor_step simpleInit 0).2.1.position = 2 ∧
    (motor_step simpleInit 0).2.2 =
      [⟨1, PinLevel.low⟩, ⟨2, PinLevel.high⟩, ⟨3, PinLevel.low⟩] := by
  refine ⟨⟨_, _, _, ?_, level_eq_high_iff _, level_eq_high_iff _,
    level_eq_high_iff _⟩, by decide, by decide, by decide⟩
  unfold motor_apply
  rw [hr, if_pos rfl]

/-- C8 witness: the general clause evaluated on the Simple state. -/
theorem apply_pins_spec_witness :
    ∃ l1 l2 l3,
      motor_apply simpleInit =
        [⟨simpleInit.pin1, l1⟩, ⟨simpleInit.pin2, l2⟩, ⟨simpleInit.pin3, l3⟩] ∧
      (l1 = PinLevel.high ↔ simpleInit.phase1 &&& simpleInit.position ≠ 0) ∧
      (l2 = PinLevel.high ↔ simpleInit.phase2 &&& simpleInit.position ≠ 0) ∧
      (l3 = PinLevel.high ↔ simpleInit.phase3 &&& simpleInit.position ≠ 0) :=
  (apply_pins_spec simpleInit rfl).1

lemma motor_apply_not_running (s : Sequence) (h : s.running = false) :
    motor_apply s = [] := by
  simp [motor_apply, h]

/-- When `motor_step` reports an advance, its writes are exactly
`motor_apply` of the post state. -/
lemma motor_step_true_writes (s : Sequence) (now : Nat)
    (h : (motor_step s now).1 = true) :
    (motor_step s now).2.2 = motor_apply (motor_step s now).2.1 := by
  rcases motor_should_update_split s now with hg | hg | hg <;>
    simp [motor_step, hg] at h ⊢

/-- A step on a released (not running) state writes nothing. -/
lemma runStep_released_writes (s : Sequence) (op : StepOp)
    (h : s.running = false) :
    (runStep s op).2 = [] := by
  cases op with
  | forward t =>
    show (motor_step s t).2.2 = []
    rcases motor_should_update_split s t with hg | hg | hg <;>
      simp [motor_step, hg, motor_apply, h]
  | backward t =>
    show (motor_step_backward s t).2.2 = []
    rcases motor_should_update_split s t with hg | hg | hg <;>
      simp [motor_step_backward, hg, motor_apply, h]

/-- A whole trace of steps on a released state writes nothing. -/
lemma runSteps_released_writes (s : Sequence) (ops : List StepOp)
    (h : s.running = false) :
    (runSteps s ops).2 = [] := by
  induction ops generalizing s with
  | nil => rfl
  | cons op rest ih =>
    have h2 : (runStep s op).1.running = false :=
      ((runStep_sameConfig s op).2.2.2.2.2.2.2.2.1).trans h
    simp only [runSteps]
    rw [runStep_released_writes s op h, ih (runStep s op).1 h2]
    rfl

/-- The pacing gate never reads or writes the `running` flag. -/
lemma motor_should_update_running_indep (s : Sequence) (now : Nat) :
    motor_should_update { s with running := false } now =
      ((motor_should_update s now).1,
        { (motor_should_update s now).2 with running := false }) := by
  by_cases h1 : s.speed_control <;> by_cases h2 : now ≥ s.next_update <;>
    simp [motor_should_update, h1, h2]

/-- The state evolution of `motor_step` ignores the `running` flag. -/
lemma motor_step_state_running_indep (s : Sequence) (now : Nat) :
    (motor_step { s with running := false } now).2.1 =
      { (motor_step s now).2.1 with running := false } := by
  rcases hg : motor_should_update s now with ⟨ok, s1⟩
  have h2 := motor_should_update_running_indep s now
  rw [hg] at h2
  cases ok <;> simp [motor_step, hg, h2]

/-- The state evolution of `motor_step_backward` ignores `running`. -/
lemma motor_step_backward_state_running_indep (s : Sequence) (now : Nat) :
    (motor_step_backward { s with running := false } now).2.1 =
      { (motor_step_backward s now).2.1 with running := false } := by
  rcases hg : motor_should_update s now with ⟨ok, s1⟩
  have h2 := motor_should_update_running_indep s now
  rw [hg] at h2
  cases ok <;> simp [motor_step_backward, hg, h2]

lemma runStep_state_running_indep (s : Sequence) (op : StepOp) :
    (runStep { s with running := false } op).1 =
      { (runStep s op).1 with running := false } := by
  cases op with
  | forward t => exact motor_step_state_running_indep s t
  | backward t => exact motor_step_backward_state_running_indep s t

/-- Position tracking is independent of the `running` flag across any
trace of step calls. -/
lemma runSteps_state_running_indep (s : Sequence) (ops : List StepOp) :
    (runSteps { s with running := false } ops).1 =
      { (runSteps s ops).1 with running := false } := by
  induction ops generalizing s with
  | nil => rfl
  | cons op rest ih =>
    simp only [runSteps]
    rw [runStep_state_running_indep]
    exact ih (runStep s op).1

/-- C9: `motor_release` immediately writes all three pins LOW; while
released, no later step call writes any pin (in particular none HIGH),
yet `position` keeps updating exactly as it would while running; after
`motor_resume` (which writes nothing), the next advancing step call
writes the three pins according to the phase masks at the new position. -/
theorem release_semantics (s : Sequence) (ops : List StepOp) (t : Nat) :
    (motor_release s).2 =
      [⟨s.pin1, PinLevel.low⟩, ⟨s.pin2, PinLevel.low⟩, ⟨s.pin3, PinLevel.low⟩] ∧
    (runSteps (motor_release s).1 ops).2 = [] ∧
    (runSteps (motor_release s).1 ops).1.position = (runSteps s ops).1.position ∧
    ((motor_step (motor_resume (runSteps (motor_release s).1 ops).1) t).1 = true →
      ∃ l1 l2 l3,
        (motor_step (motor_resume (runSteps (motor_release s).1 ops).1) t).2.2 = [⟨s.pin1, l1⟩, ⟨s.pin2, l2⟩, ⟨s.pin3, l3⟩] ∧
        (l1 = PinLevel.high ↔ s.phase1 &&& (motor_step (motor_resume (runSteps (motor_release s).1 ops).1) t).2.1.position ≠ 0) ∧
        (l2 = PinLevel.high ↔ s.phase2 &&& (motor_step (motor_resume (runSteps (motor_release s).1 ops).1) t).2.1.position ≠ 0) ∧
        (l3 = PinLevel.high ↔ s.phase3 &&& (motor_step (motor_resume (runSteps (motor_release s).1 ops).1) t).2.1.position ≠ 0)) := by
  refine ⟨rfl, runSteps_released_writes (motor_release s).1 ops rfl, ?_, ?_⟩
  · show (runSteps { s with running := false } ops).1.position =
      (runSteps s ops).1.position
    rw [runSteps_state_running_indep]
  · intro hgate
    have hw := motor_step_true_writes (motor_resume (runSteps (motor_release s).1 ops).1) t hgate
    obtain ⟨c1, c2, c3, c4, c5, c6, -, -, c9, -, -⟩ :=
      runStep_sameConfig (motor_resume (runSteps (motor_release s).1 ops).1) (StepOp.forward t)
    simp only [runStep] at c1 c2 c3 c4 c5 c6 c9
    obtain ⟨d1, d2, d3, d4, d5, d6, -, -, -, -, -⟩ :=
      runSteps_sameConfig (motor_release s).1 ops
    have hp1 : (motor_step (motor_resume (runSteps (motor_release s).1 ops).1) t).2.1.pin1 = s.pin1 := c1.trans d1
    have hp2 : (motor_step (motor_resume (runSteps (motor_release s).1 ops).1) t).2.1.pin2 = s.pin2 := c2.trans d2
    have hp3 : (motor_step (motor_resume (runSteps (motor_release s).1 ops).1) t).2.1.pin3 = s.pin3 := c3.trans d3
    have hq1 : (motor_step (motor_resume (runSteps (motor_release s).1 ops).1) t).2.1.phase1 = s.phase1 := c4.trans d4
    have hq2 : (motor_step (motor_resume (runSteps (motor_release s).1 ops).1) t).2.1.phase2 = s.phase2 := c5.trans d5
    have hq3 : (motor_step (motor_resume (runSteps (motor_release s).1 ops).1) t).2.1.phase3 = s.phase3 := c6.trans d6
    have hrun : (motor_step (motor_resume (runSteps (motor_release s).1 ops).1) t).2.1.running = true := c9
    refine ⟨_, _, _, ?_, level_eq_high_iff _, level_eq_high_iff _,
      level_eq_high_iff _⟩
    rw [hw]
    unfold motor_apply
    rw [hrun, if_pos rfl, hp1, hp2, hp3, hq1, hq2, hq3]

/-- C9 witness: Simple pattern, one released step, then resume and one
more step; the released step writes nothing and the post-resume step
writes the pattern of position 4. -/
theorem release_semantics_witness :
    (motor_release simpleInit).2 =
      [⟨1, PinLevel.low⟩, ⟨2, PinLevel.low⟩, ⟨3, PinLevel.low⟩] ∧
    (runSteps (motor_release simpleInit).1 [StepOp.forward 0]).2 = [] ∧
    (runSteps (motor_release simpleInit).1 [StepOp.forward 0]).1.position =
      (runSteps simpleInit [StepOp.forward 0]).1.position ∧
    ∃ l1 l2 l3,
      (motor_step
        (motor_resume (runSteps (motor_release simpleInit).1 [StepOp.forward 0]).1)
          9).2.2 = [⟨1, l1⟩, ⟨2, l2⟩, ⟨3, l3⟩] ∧
      (l1 = PinLevel.high ↔ (4 : Nat) &&&
        (motor_step
          (motor_resume (runSteps (motor_release simpleInit).1 [StepOp.forward 0]).1)
            9).2.1.position ≠ 0) ∧
      (l2 = PinLevel.high ↔ (2 : Nat) &&&
        (motor_step
          (motor_resume (runSteps (motor_release simpleInit).1 [StepOp.forward 0]).1)
            9).2.1.position ≠ 0) ∧
      (l3 = PinLevel.high ↔ (1 : Nat) &&&
        (motor_step
          (motor_resume (runSteps (motor_release simpleInit).1 [StepOp.forward 0]).1)
            9).2.1.position ≠ 0) := by
  have h := release_semantics simpleInit [StepOp.forward 0] 9
  exact ⟨h.1, h.2.1, h.2.2.1, h.2.2.2 (by decide)⟩

/-- On any invariant state, at least one phase mask covers the current
position bit. -/
lemma inv_mask_coverage (s : Sequence) (hinv : Inv s) :
    s.phase1 &&& s.position ≠ 0 ∨ s.phase2 &&& s.position ≠ 0 ∨
      s.phase3 &&& s.position ≠ 0 := by
  obtain ⟨hpat, hlim, k, hk, hpos⟩ := hinv
  rcases hpat with ⟨h1, h2, h3, hst⟩ | ⟨h1, h2, h3, hst⟩ <;>
    rw [h1, h2, h3, hpos] <;> rw [hst] at hk <;> interval_cases k <;> decide

/-- C10: for either built-in pattern, every single-bit position below
`limit` is covered by at least one phase mask, and hence a running
sequencer holds at least one pin HIGH after every trace of applied
steps. -/
theorem pattern_coverage (p1 p2 p3 : Nat) (ty : SequenceType) (t0 : Nat)
    (s0 : Sequence) (pins : List Nat)
    (hinit : motor_initialize p1 p2 p3 ty t0 = some (s0, pins))
    (k : Nat) (hk : 2 ^ k < s0.limit) (ops : List StepOp) :
    (s0.phase1 &&& 2 ^ k ≠ 0 ∨ s0.phase2 &&& 2 ^ k ≠ 0 ∨
      s0.phase3 &&& 2 ^ k ≠ 0) ∧
    ∃ w, w ∈ motor_apply (runSteps s0 ops).1 ∧ w.level = PinLevel.high := by
  obtain ⟨hinv0, -, hrun0, -⟩ := initialize_inv p1 p2 p3 ty t0 s0 pins hinit
  constructor
  · obtain ⟨hpat, hlim, -⟩ := hinv0
    rcases hpat with ⟨h1, h2, h3, hst⟩ | ⟨h1, h2, h3, hst⟩ <;>
      rw [h1, h2, h3] <;> rw [hst] at hlim <;> rw [hlim] at hk
    · have hk3 : k < 3 := by
        by_contra hc
        push_neg at hc
        have := Nat.pow_le_pow_right (show 1 ≤ 2 by norm_num) hc
        omega
      interval_cases k <;> decide
    · have hk6 : k < 6 := by
        by_contra hc
        push_neg at hc
        have := Nat.pow_le_pow_right (show 1 ≤ 2 by norm_num) hc
        omega
      interval_cases k <;> decide
  · have hinv := runSteps_inv s0 ops hinv0
    have hrun : (runSteps s0 ops).1.running = true :=
      ((runSteps_sameConfig s0 ops).2.2.2.2.2.2.2.2.1).trans hrun0
    rcases inv_mask_coverage (runSteps s0 ops).1 hinv with h | h | h <;>
      · unfold motor_apply
        rw [hrun, if_pos rfl]
        first
        | exact ⟨_, List.mem_cons_self _ _, if_pos h⟩
        | exact ⟨_, List.mem_cons_of_mem _ (List.mem_cons_self _ _), if_pos h⟩
        | exact ⟨_, List.mem_cons_of_mem _
            (List.mem_cons_of_mem _ (List.mem_cons_self _ _)), if_pos h⟩

/-- C10 witness: Simple pattern, position bit 4, one applied step. -/
theorem pattern_coverage_witness :
    (simpleInit.phase1 &&& 2 ^ 2 ≠ 0 ∨ simpleInit.phase2 &&& 2 ^ 2 ≠ 0 ∨
      simpleInit.phase3 &&& 2 ^ 2 ≠ 0) ∧
    ∃ w, w ∈ motor_apply (runSteps simpleInit [StepOp.forward 0]).1 ∧
      w.level = PinLevel.high :=
  pattern_coverage 1 2 3 .simple 0 simpleInit [1, 2, 2] (by decide) 2
    (by decide) [StepOp.forward 0]

end SRM
